import Mathlib

/-!
Shallow embedding of `main.go` from the file-processing worker repository.

Modelling conventions:
* Go strings are byte strings; we model them as `List Char` (`GoStr`).  Go's
  built-in string comparison is byte-wise lexicographic; UTF-8 byte order
  coincides with code-point order, so `List Char` with code-point comparison
  is a faithful model.
* Filesystem and I/O operations can fail nondeterministically; every fallible
  operation's outcome is an explicit boolean in an environment record, and the
  relevant filesystem contents are explicit state threaded through the
  functions.
* Machine integers (the MD5 state words) are `Nat` reduced `% 2^32`.
* Absent JSON fields (`omitempty` on empty Go strings) are modelled as the
  empty string `[]`.
-/

/-- Model of a Go string: its sequence of characters. -/
abbrev GoStr : Type := List Char

/-- Byte-wise strict comparison of Go strings (the built-in `<` on `string`). -/
def strLt : GoStr → GoStr → Bool
  | [], [] => false
  | [], _ :: _ => true
  | _ :: _, [] => false
  | a :: as, b :: bs => if a < b then true else if b < a then false else strLt as bs

/-- Byte-wise non-strict comparison: `a ≤ b` iff `¬ (b < a)`, as for Go strings. -/
def strLe (a b : GoStr) : Bool := !(strLt b a)

theorem strLt_irrefl (a : GoStr) : strLt a a = false := by
  induction a with
  | nil => rfl
  | cons c cs ih => simp [strLt, lt_irrefl, ih]

theorem strLt_trichotomy (a b : GoStr) :
    strLt a b = true ∨ strLt b a = true ∨ a = b := by
  induction a generalizing b with
  | nil => cases b with
    | nil => simp [strLt]
    | cons d ds => simp [strLt]
  | cons c cs ih =>
    cases b with
    | nil => simp [strLt]
    | cons d ds =>
      rcases lt_trichotomy c d with h | h | h
      · left; simp [strLt, h]
      · subst h
        rcases ih ds with h2 | h2 | h2
        · left; simp [strLt, lt_irrefl, h2]
        · right; left; simp [strLt, lt_irrefl, h2]
        · right; right; simp [h2]
      · right; left; simp [strLt, h, asymm h]

theorem strLt_asymm {a b : GoStr} (h : strLt a b = true) : strLt b a = false := by
  induction a generalizing b with
  | nil => cases b with
    | nil => rfl
    | cons d ds => rfl
  | cons c cs ih =>
    cases b with
    | nil => exact absurd h (by simp [strLt])
    | cons d ds =>
      rcases lt_trichotomy c d with hcd | hcd | hcd
      · simp [strLt, hcd, asymm hcd]
      · subst hcd
        simp [strLt, lt_irrefl] at h ⊢
        exact ih h
      · simp [strLt, hcd, asymm hcd] at h

theorem strLt_trans {a b c : GoStr} (h1 : strLt a b = true) (h2 : strLt b c = true) :
    strLt a c = true := by
  induction a generalizing b c with
  | nil =>
    cases c with
    | nil =>
      cases b with
      | nil => exact h2
      | cons d ds => exact absurd h2 (by simp [strLt])
    | cons e es => simp [strLt]
  | cons x xs ih =>
    cases b with
    | nil => exact absurd h1 (by simp [strLt])
    | cons y ys =>
      cases c with
      | nil => exact absurd h2 (by simp [strLt])
      | cons z zs =>
        by_cases hxy : x < y
        · by_cases hyz : y < z
          · simp [strLt, lt_trans hxy hyz]
          · by_cases hzy : z < y
            · simp [strLt, hyz, hzy] at h2
            · have hyz' : y = z := le_antisymm (not_lt.mp hzy) (not_lt.mp hyz)
              subst hyz'
              simp [strLt, hxy]
        · by_cases hyx : y < x
          · simp [strLt, hxy, hyx] at h1
          · have hxy' : x = y := le_antisymm (not_lt.mp hyx) (not_lt.mp hxy)
            subst hxy'
            by_cases hyz : x < z
            · simp [strLt, hyz]
            · by_cases hzy : z < x
              · simp [strLt, hyz, hzy] at h2
              · have hxz : x = z := le_antisymm (not_lt.mp hzy) (not_lt.mp hyz)
                subst hxz
                simp [strLt, lt_irrefl] at h1 h2 ⊢
                exact ih h1 h2

theorem strLt_connex {a b : GoStr} (h1 : strLt a b = false) (h2 : strLt b a = false) :
    a = b := by
  rcases strLt_trichotomy a b with h | h | h
  · rw [h] at h1; cases h1
  · rw [h] at h2; cases h2
  · exact h

theorem strLe_refl (a : GoStr) : strLe a a = true := by
  simp [strLe, strLt_irrefl]

theorem strLe_total (a b : GoStr) : strLe a b = true ∨ strLe b a = true := by
  rcases strLt_trichotomy b a with h | h | h
  · right; simp [strLe, strLt_asymm h]
  · left; simp [strLe, strLt_asymm h]
  · subst h; left; simp [strLe, strLt_irrefl]

theorem strLe_trans {a b c : GoStr} (h1 : strLe a b = true) (h2 : strLe b c = true) :
    strLe a c = true := by
  simp only [strLe, Bool.not_eq_true'] at h1 h2 ⊢
  by_contra hca
  have hca' : strLt c a = true := by
    cases h : strLt c a
    · exact absurd h hca
    · rfl
  rcases strLt_trichotomy a b with hab | hab | hab
  · have : strLt c b = true := strLt_trans hca' hab
    rw [this] at h2; cases h2
  · rw [hab] at h1; cases h1
  · subst hab
    rw [hca'] at h2; cases h2

theorem strLt_of_strLe_of_ne {a b : GoStr} (h1 : strLe a b = true) (h2 : a ≠ b) :
    strLt a b = true := by
  simp only [strLe, Bool.not_eq_true'] at h1
  rcases strLt_trichotomy a b with h | h | h
  · exact h
  · rw [h] at h1; cases h1
  · exact absurd h h2

/-!
MD5 (`crypto/md5` from the Go standard library), embedded over `Nat` with
explicit reduction modulo `2^32`.  Message bytes are naturals below 256.
-/

/-- Reduction modulo `2^32`, the word size of the MD5 state. -/
def m32 (x : Nat) : Nat := x % 4294967296

/-- Rotate a 32-bit word left by `n` bits. -/
def rotl32 (x n : Nat) : Nat :=
  (((x % 4294967296) <<< n) % 4294967296) ||| ((x % 4294967296) >>> (32 - n))

/-- Round function F of MD5: `(b ∧ c) ∨ (¬b ∧ d)`. -/
def md5F (b c d : Nat) : Nat := (b &&& c) ||| ((b ^^^ 4294967295) &&& d)

/-- Round function G of MD5: `(b ∧ d) ∨ (c ∧ ¬d)`. -/
def md5G (b c d : Nat) : Nat := (b &&& d) ||| (c &&& (d ^^^ 4294967295))

/-- Round function H of MD5: `b ⊕ c ⊕ d`. -/
def md5H (b c d : Nat) : Nat := b ^^^ c ^^^ d

/-- Round function I of MD5: `c ⊕ (b ∨ ¬d)`. -/
def md5I (b c d : Nat) : Nat := c ^^^ (b ||| (d ^^^ 4294967295))

/-- The 64 MD5 sine-derived constants `⌊|sin(i+1)| · 2^32⌋`. -/
def md5K : List Nat :=
  [3614090360, 3905402710, 606105819, 3250441966, 4118548399, 1200080426,
   2821735955, 4249261313, 1770035416, 2336552879, 4294925233, 2304563134,
   1804603682, 4254626195, 2792965006, 1236535329, 4129170786, 3225465664,
   643717713, 3921069994, 3593408605, 38016083, 3634488961, 3889429448,
   568446438, 3275163606, 4107603335, 1163531501, 2850285829, 4243563512,
   1735328473, 2368359562, 4294588738, 2272392833, 1839030562, 4259657740,
   2763975236, 1272893353, 4139469664, 3200236656, 681279174, 3936430074,
   3572445317, 76029189, 3654602809, 3873151461, 530742520, 3299628645,
   4096336452, 1126891415, 2878612391, 4237533241, 1700485571, 2399980690,
   4293915773, 2240044497, 1873313359, 4264355552, 2734768916, 1309151649,
   4149444226, 3174756917, 718787259, 3951481745]

/-- The 64 MD5 per-round left-rotation amounts. -/
def md5S : List Nat :=
  [7, 12, 17, 22, 7, 12, 17, 22, 7, 12, 17, 22, 7, 12, 17, 22,
   5, 9, 14, 20, 5, 9, 14, 20, 5, 9, 14, 20, 5, 9, 14, 20,
   4, 11, 16, 23, 4, 11, 16, 23, 4, 11, 16, 23, 4, 11, 16, 23,
   6, 10, 15, 21, 6, 10, 15, 21, 6, 10, 15, 21, 6, 10, 15, 21]

/-- The four 32-bit MD5 chaining variables. -/
structure MD5State where
  a : Nat
  b : Nat
  c : Nat
  d : Nat

/-- Little-endian word `g` (0 ≤ g < 16) of a 64-byte block. -/
def wordAt (block : List Nat) (g : Nat) : Nat :=
  (block.getD (4 * g) 0 % 256) + 256 * (block.getD (4 * g + 1) 0 % 256) +
    65536 * (block.getD (4 * g + 2) 0 % 256) +
    16777216 * (block.getD (4 * g + 3) 0 % 256)

/-- One of the 64 MD5 rounds applied to the running state. -/
def md5Round (M : Nat → Nat) (st : MD5State) (i : Nat) : MD5State :=
  let fg : Nat × Nat :=
    if i < 16 then (md5F st.b st.c st.d, i)
    else if i < 32 then (md5G st.b st.c st.d, (5 * i + 1) % 16)
    else if i < 48 then (md5H st.b st.c st.d, (3 * i + 5) % 16)
    else (md5I st.b st.c st.d, (7 * i) % 16)
  let tmp := m32 (fg.1 + st.a + md5K.getD i 0 + M fg.2)
  ⟨st.d, m32 (st.b + rotl32 tmp (md5S.getD i 0)), st.b, st.c⟩

/-- Compression of one 64-byte block into the chaining state. -/
def md5Block (st : MD5State) (block : List Nat) : MD5State :=
  let r := (List.range 64).foldl (md5Round (wordAt block)) st
  ⟨m32 (st.a + r.a), m32 (st.b + r.b), m32 (st.c + r.c), m32 (st.d + r.d)⟩

/-- Serialization of a 32-bit word as 4 little-endian bytes. -/
def toLE4 (x : Nat) : List Nat :=
  [x % 256, x / 256 % 256, x / 65536 % 256, x / 16777216 % 256]

/-- Serialization of a 64-bit length as 8 little-endian bytes. -/
def toLE8 (x : Nat) : List Nat :=
  [x % 256, x / 256 % 256, x / 65536 % 256, x / 16777216 % 256,
   x / 4294967296 % 256, x / 1099511627776 % 256,
   x / 281474976710656 % 256, x / 72057594037927936 % 256]

/-- MD5 padding: a `0x80` byte, zeros to 56 mod 64, then the 64-bit bit length. -/
def md5Pad (msg : List Nat) : List Nat :=
  msg ++ 128 :: List.replicate ((64 + 55 - msg.length % 64) % 64) 0 ++
    toLE8 (msg.length * 8 % 18446744073709551616)

/-- Splitting a byte sequence into 64-byte blocks, with a structural fuel
counter so the definition reduces; the fuel `l.length` always suffices since
every step consumes at least one element. -/
def chunksAux : Nat → List Nat → List (List Nat)
  | 0, _ => []
  | _, [] => []
  | fuel + 1, l => l.take 64 :: chunksAux fuel (l.drop 64)

/-- Splitting a byte sequence into 64-byte blocks. -/
def chunks64 (l : List Nat) : List (List Nat) := chunksAux l.length l

/-- The MD5 digest of a byte sequence, as 16 bytes. -/
def md5Sum (msg : List Nat) : List Nat :=
  let blocks := chunks64 (md5Pad msg)
  let st := blocks.foldl md5Block ⟨1732584193, 4023233417, 2562383102, 271733878⟩
  toLE4 st.a ++ toLE4 st.b ++ toLE4 st.c ++ toLE4 st.d

/-- The lowercase hex digit table of `encoding/hex` (`hextable`). -/
def lowerHexTable : GoStr := "0123456789abcdef".toList

/-- Hex digit for a nibble, from the lowercase table. -/
def hexDigit (n : Nat) : Char := lowerHexTable.getD n 'f'

/-- Model of `hex.EncodeToString`: two lowercase hex digits per byte,
high nibble first. -/
def hexEncode (bs : List Nat) : GoStr :=
  bs.flatMap (fun b => [hexDigit (b / 16 % 16), hexDigit (b % 16)])

/-- Character-level check that a character is a lowercase hex digit. -/
def isLowerHexChar (c : Char) : Bool := lowerHexTable.contains c

theorem hexDigit_isLowerHex (n : Nat) : isLowerHexChar (hexDigit n) = true := by
  by_cases h : n < lowerHexTable.length
  · have hmem : hexDigit n ∈ lowerHexTable := by
      rw [hexDigit, List.getD_eq_getElem _ _ h]
      exact List.getElem_mem h
    simpa [isLowerHexChar] using hmem
  · rw [hexDigit, List.getD_eq_default _ _ (le_of_not_lt h)]
    decide

theorem hexEncode_all_lowerHex (bs : List Nat) :
    (hexEncode bs).all isLowerHexChar = true := by
  induction bs with
  | nil => rfl
  | cons b rest ih =>
    simp only [hexEncode, List.flatMap_cons, List.all_append, Bool.and_eq_true] at ih ⊢
    exact ⟨by simp [hexDigit_isLowerHex], ih⟩

theorem hexEncode_length (bs : List Nat) : (hexEncode bs).length = 2 * bs.length := by
  induction bs with
  | nil => rfl
  | cons b rest ih =>
    simp only [hexEncode, List.flatMap_cons] at ih ⊢
    simp [ih, List.length_append]
    omega

theorem md5Sum_length (msg : List Nat) : (md5Sum msg).length = 16 := by
  rw [md5Sum]
  simp [toLE4, List.length_append]

set_option maxRecDepth 100000 in
/-- Sanity check of the MD5 embedding against the standard test vector
for the empty message. -/
theorem md5Sum_empty_vector :
    hexEncode (md5Sum []) = "d41d8cd98f00b204e9800998ecf8427e".toList := by decide

set_option maxRecDepth 100000 in
/-- Sanity check of the MD5 embedding against the standard test vector
for the three-byte message `abc`. -/
theorem md5Sum_abc_vector :
    hexEncode (md5Sum [97, 98, 99]) = "900150983cd24fb0d6963f7d28e17f72".toList := by
  decide

/-!
The `LogEntry` record and `processFile` (FileHasher) from `main.go`.

`processFile` performs three fallible effects: `os.Open`, the streamed read
(`io.Copy` into the hash), and `Close`.  The outcome of open/read for the
file being processed is an explicit `FileOutcome`; a successful stream
carries the file's byte content.  `time.Now().UTC().Format(time.RFC3339)` is
called exactly once, at function entry, and its formatted value is passed in
as `now`.
-/

/-- Mirror of the Go struct `LogEntry`; `omitempty` string fields are the
empty string when absent. -/
structure LogEntry where
  Filename : GoStr
  Status : GoStr
  MD5 : GoStr
  Error : GoStr
  Timestamp : GoStr
deriving DecidableEq

/-- Status literal `success`. -/
def statusSuccess : GoStr := "success".toList

/-- Status literal `error`. -/
def statusError : GoStr := "error".toList

/-- Outcome of the open/read effects for one file. -/
inductive FileOutcome where
  | openError (msg : GoStr)
  | readError (msg : GoStr)
  | ok (content : List Nat)
deriving DecidableEq

/-- Error text `failed to open file: <cause>` produced by `processFile`. -/
def openFailText (msg : GoStr) : GoStr := "failed to open file: ".toList ++ msg

/-- Error text `failed to read file: <cause>` produced by `processFile`. -/
def readFailText (msg : GoStr) : GoStr := "failed to read file: ".toList ++ msg

/-- Embedding of `processFile`: one `LogEntry` per call, every exit path
carrying the single timestamp sampled at entry. -/
def processFile (basename : GoStr) (now : GoStr) (o : FileOutcome) : LogEntry :=
  match o with
  | .openError msg =>
      { Filename := basename, Status := statusError, MD5 := [],
        Error := openFailText msg, Timestamp := now }
  | .readError msg =>
      { Filename := basename, Status := statusError, MD5 := [],
        Error := readFailText msg, Timestamp := now }
  | .ok content =>
      { Filename := basename, Status := statusSuccess,
        MD5 := hexEncode (md5Sum content), Error := [], Timestamp := now }

theorem processFile_filename (basename now : GoStr) (o : FileOutcome) :
    (processFile basename now o).Filename = basename := by
  cases o <;> rfl

/-- Instrumented wrapper around `processFile` making logical time explicit:
`t0` is the clock at function entry (the single point where the source calls
`time.Now()`), `fmt` stands for RFC3339/UTC formatting, and `dOpen`/`dRead`
are the durations consumed by the open attempt and the streamed read.  The
second component is the clock value at the moment the call returns. -/
def processFileTimed (basename : GoStr) (fmt : Nat → GoStr) (o : FileOutcome)
    (dOpen dRead t0 : Nat) : LogEntry × Nat :=
  match o with
  | .openError _ => (processFile basename (fmt t0) o, t0 + dOpen)
  | .readError _ => (processFile basename (fmt t0) o, t0 + dOpen + dRead)
  | .ok _ => (processFile basename (fmt t0) o, t0 + dOpen + dRead)

/-!
DurableLogWriter: `writeLogAtomic` writes `log.tmp` inside the folder and
renames it onto `log.json`.  The filesystem slice relevant to it is the pair
(`log.tmp`, `log.json`) of this folder; serialization is modelled by storing
the record list itself (`json.MarshalIndent` on this struct type is
deterministic, and no claim concerns the byte-level JSON).  Each fallible
step's outcome is a boolean in `WriteEnv`.
-/

/-- Outcomes of the fallible steps inside `writeLogAtomic`, in program
order: `json.MarshalIndent`, `os.Create`, `Write`, `Sync`, `Close`,
`os.Rename`. -/
structure WriteEnv where
  marshalOk : Bool
  createOk : Bool
  writeOk : Bool
  syncOk : Bool
  closeOk : Bool
  renameOk : Bool
deriving DecidableEq

/-- The folder's log files: whether `log.tmp` exists (and its content), and
the content of `log.json` if it exists. -/
structure LogFS where
  tmpExists : Bool
  tmp : Option (List LogEntry)
  log : Option (List LogEntry)
deriving DecidableEq

/-- Embedding of `writeLogAtomic`.  Returns whether the call succeeded
(`err == nil`) and the resulting log-file state.  Faithful points: a failed
`Write` closes and removes `log.tmp`; a failed `Sync` is only a warning; a
failed `Close` returns the error WITHOUT removing `log.tmp`; a failed
`os.Rename` removes `log.tmp`; only a successful rename touches `log.json`. -/
def writeLogAtomic (env : WriteEnv) (results : List LogEntry) (fs : LogFS) :
    Bool × LogFS :=
  if !env.marshalOk then (false, fs)
  else if !env.createOk then (false, fs)
  else
    let fs1 : LogFS := { fs with tmpExists := true, tmp := some [] }
    if !env.writeOk then (false, { fs1 with tmpExists := false, tmp := none })
    else
      let fs2 : LogFS := { fs1 with tmp := some results }
      if !env.closeOk then (false, fs2)
      else if !env.renameOk then (false, { fs2 with tmpExists := false, tmp := none })
      else (true, { fs2 with tmpExists := false, tmp := none, log := some results })

theorem writeLogAtomic_ok_iff (env : WriteEnv) (results : List LogEntry) (fs : LogFS) :
    (writeLogAtomic env results fs).1 =
      (env.marshalOk && env.createOk && env.writeOk && env.closeOk && env.renameOk) := by
  rcases env with ⟨m, cr, w, s, cl, r⟩
  cases m <;> cases cr <;> cases w <;> cases cl <;> cases r <;> rfl

/-!
FolderFinalizer: `renameFolderSafe`.  Folders live in one parent directory;
the set of names present there is a predicate `dirs : GoStr → Bool`.  The
folder is identified by its base name.  `time.Now().UTC().Format(...)` for
the collision suffix is passed in as `ts`; the success of the final
`os.Rename` is the boolean `mvOk`.
-/

/-- The `r_` pending marker. -/
def rMark : GoStr := "r_".toList

/-- The `d_` done marker. -/
def dMark : GoStr := "d_".toList

/-- The `f_` failed marker. -/
def fMark : GoStr := "f_".toList

/-- Model of `strings.HasPrefix`. -/
def goHasPfx (p s : GoStr) : Bool := List.isPrefixOf p s

/-- Model of `strings.TrimPrefix`. -/
def goTrimPfx (p s : GoStr) : GoStr :=
  if List.isPrefixOf p s then s.drop p.length else s

/-- Split at the first occurrence of `sep`: `some (before, after)` when the
separator occurs, `none` otherwise.  `strings.SplitN s sep 2` is
`[before, after]` in the first case and `[s]` in the second. -/
def splitFirst (sep : Char) : GoStr → Option (GoStr × GoStr)
  | [] => none
  | c :: cs =>
      if c = sep then some ([], cs)
      else (splitFirst sep cs).map (fun p => (c :: p.1, p.2))

/-- The stable identifier `renameFolderSafe` derives from the folder's base
name: strip `r_` when present, otherwise everything after the first
underscore when the name contains one (via `strings.SplitN(base, "_", 2)`),
otherwise the base name itself. -/
def deriveId (base : GoStr) : GoStr :=
  if goHasPfx rMark base then goTrimPfx rMark base
  else
    match splitFirst '_' base with
    | some p => p.2
    | none => base

/-- The status marker chosen from the aggregate verdict. -/
def markOf (allSuccess : Bool) : GoStr := if allSuccess then dMark else fMark

/-- The target name `renameFolderSafe` computes: marker plus identifier,
with `_<timestamp>` appended when a directory already exists at the plain
target name. -/
def renameTarget (dirs : GoStr → Bool) (ts src : GoStr) (allSuccess : Bool) : GoStr :=
  let tgt0 := markOf allSuccess ++ deriveId src
  if dirs tgt0 then tgt0 ++ '_' :: ts else tgt0

/-- Embedding of `renameFolderSafe`: returns whether the call succeeded and
the parent directory contents afterwards.  On `os.Rename` failure the
directory contents are untouched (the folder keeps its current name). -/
def renameFolderSafe (dirs : GoStr → Bool) (mvOk : Bool) (ts src : GoStr)
    (allSuccess : Bool) : Bool × (GoStr → Bool) :=
  let tgt := renameTarget dirs ts src allSuccess
  if mvOk then
    (true, fun n => if n = tgt then true else if n = src then false else dirs n)
  else (false, dirs)

/-!
The per-folder pipeline `processFolder`, after the concurrent phase: the
collected results (in nondeterministic channel-arrival order) are sorted by
filename, the aggregate verdict is computed, the log is written atomically,
and the folder is renamed — with verdict forced to `failed` when log
publication fails.
-/

/-- One entry of `os.ReadDir`'s result: a name and whether it is a directory. -/
structure GoDirEntry where
  name : GoStr
  isDir : Bool

/-- The non-directory entries of the folder, as collected by the scan loop
in `processFolder` (nested directories are skipped). -/
def scanFiles (entries : List GoDirEntry) : List GoDirEntry :=
  entries.filter (fun de => !de.isDir)

/-- One dispatched `processFile` call per scanned file: `oracle` gives each
file's open/read outcome and `times` the RFC3339 string sampled at that
call's entry.  The channel delivers exactly these records, in an order
determined by scheduling. -/
def dispatched (entries : List GoDirEntry) (oracle : GoStr → FileOutcome)
    (times : GoStr → GoStr) : List LogEntry :=
  (scanFiles entries).map (fun de => processFile de.name (times de.name) (oracle de.name))

/-- Ordering used by `sort.Slice(results, ...)`: ascending byte-wise
comparison of the `Filename` fields. -/
def entryLe (x y : LogEntry) : Prop := strLe x.Filename y.Filename = true

/-- Strict version of `entryLe`, used to show sorted outputs are unique when
filenames are distinct. -/
def entryLt (x y : LogEntry) : Prop := strLt x.Filename y.Filename = true

instance : DecidableRel entryLe := fun _ _ => decEq _ _

instance : DecidableRel entryLt := fun _ _ => decEq _ _

instance : IsTotal LogEntry entryLe := ⟨fun x y => strLe_total x.Filename y.Filename⟩

instance : IsTrans LogEntry entryLe := ⟨fun _ _ _ h1 h2 => strLe_trans h1 h2⟩

instance : IsAntisymm LogEntry entryLt :=
  ⟨fun x y h1 h2 => by
    have := strLt_asymm (a := y.Filename) (b := x.Filename) h2
    rw [entryLt, this] at h1
    cases h1⟩

/-- Model of `sort.Slice(results, less)` with `less` comparing filenames with
the built-in `<`: Go's sort guarantees exactly that the output is a
permutation of the input that is nondecreasing under `less`; we realize it
with a concrete sort. -/
def sortByFilename (l : List LogEntry) : List LogEntry := List.insertionSort entryLe l

/-- Aggregate-verdict loop of `processFolder`: `allSuccess` starts `true`
and is cleared when any record's status differs from `success`. -/
def computeAllSuccess (results : List LogEntry) : Bool :=
  results.all (fun r => r.Status = statusSuccess)

/-- Observables of one `processFolder` run after the concurrent phase:
whether the call returned `nil`, the folder's log files, the parent
directory contents, and the verdict passed to `renameFolderSafe`. -/
structure RunResult where
  ok : Bool
  lfs : LogFS
  dirs : GoStr → Bool
  verdictUsed : Bool

/-- Environment for one `processFolder` run: outcomes for the log-writing
steps, the folder-rename outcome, and the collision timestamp. -/
structure FolderEnv where
  wenv : WriteEnv
  mvOk : Bool
  ts : GoStr

/-- Embedding of `processFolder` from the point where the result channel has
been drained: `arrival` is the collected `results` slice in channel order.
Mirrors the source: sort, compute `allSuccess`, `writeLogAtomic`; on its
failure rename with verdict `false` and return an error; otherwise rename
with the aggregate verdict. -/
def processFolderRun (srcName : GoStr) (arrival : List LogEntry) (env : FolderEnv)
    (lfs : LogFS) (dirs : GoStr → Bool) : RunResult :=
  let sorted := sortByFilename arrival
  let allSuccess := computeAllSuccess sorted
  let w := writeLogAtomic env.wenv sorted lfs
  if w.1 then
    let r := renameFolderSafe dirs env.mvOk env.ts srcName allSuccess
    { ok := r.1, lfs := w.2, dirs := r.2, verdictUsed := allSuccess }
  else
    let r := renameFolderSafe dirs env.mvOk env.ts srcName false
    { ok := false, lfs := w.2, dirs := r.2, verdictUsed := false }

/-!
BoundedWorkerPool: the dispatch loop of `processFolder` sends a token into
the buffered channel `sem` (capacity `concurrency`) BEFORE spawning the
goroutine for a task, and the goroutine's deferred receive returns the token
when the task completes — whether `processFile` succeeded or failed.  We
model the pool as a labelled transition system over the per-task phases; a
buffered-channel send is enabled exactly when fewer than `cap` tokens are
outstanding, and the main loop dispatches tasks in order.
-/

/-- Lifecycle phase of one file task: not yet dispatched; slot acquired but
goroutine not yet running `processFile`; running `processFile`; completed
with its slot released. -/
inductive Phase where
  | idle
  | queued
  | running
  | done
deriving DecidableEq

/-- Number of pool slots held: tasks that have acquired but not yet
released, i.e. queued or running. -/
def heldCount (ps : List Phase) : Nat :=
  ps.countP (fun p => p = Phase.queued || p = Phase.running)

/-- Number of tasks currently executing `processFile`. -/
def runningCount (ps : List Phase) : Nat :=
  ps.countP (fun p => p = Phase.running)

/-- One step of the pool.  `dispatch`: the main loop acquires a slot for the
next undispatched task, enabled only when the semaphore channel is not full
(and, the loop being sequential, when every earlier task is already
dispatched).  `start`: a dispatched goroutine begins `processFile`.
`finish`: a running task completes (successfully or not) and its deferred
release returns the slot. -/
inductive PoolStep (cap : Nat) : List Phase → List Phase → Prop
  | dispatch (l r : List Phase) (hprev : ∀ q ∈ l, q ≠ Phase.idle)
      (hcap : heldCount (l ++ Phase.idle :: r) < cap) :
      PoolStep cap (l ++ Phase.idle :: r) (l ++ Phase.queued :: r)
  | start (l r : List Phase) :
      PoolStep cap (l ++ Phase.queued :: r) (l ++ Phase.running :: r)
  | finish (l r : List Phase) :
      PoolStep cap (l ++ Phase.running :: r) (l ++ Phase.done :: r)

/-- Pool states reachable from the initial state of `n` undispatched tasks
under semaphore capacity `cap`. -/
def PoolReach (cap n : Nat) (ps : List Phase) : Prop :=
  Relation.ReflTransGen (PoolStep cap) (List.replicate n Phase.idle) ps

theorem heldCount_append (l r : List Phase) :
    heldCount (l ++ r) = heldCount l + heldCount r := by
  simp [heldCount, List.countP_append]

theorem heldCount_cons_idle (r : List Phase) :
    heldCount (Phase.idle :: r) = heldCount r := by
  simp [heldCount, List.countP_cons]

theorem heldCount_cons_queued (r : List Phase) :
    heldCount (Phase.queued :: r) = heldCount r + 1 := by
  simp [heldCount, List.countP_cons]

theorem heldCount_cons_running (r : List Phase) :
    heldCount (Phase.running :: r) = heldCount r + 1 := by
  simp [heldCount, List.countP_cons]

theorem heldCount_cons_done (r : List Phase) :
    heldCount (Phase.done :: r) = heldCount r := by
  simp [heldCount, List.countP_cons]

theorem heldCount_le_of_step {cap : Nat} {ps ps' : List Phase}
    (h : PoolStep cap ps ps') (hps : heldCount ps ≤ cap) : heldCount ps' ≤ cap := by
  cases h with
  | dispatch l r hprev hcap =>
    rw [heldCount_append, heldCount_cons_idle] at hcap
    rw [heldCount_append, heldCount_cons_queued]
    omega
  | start l r =>
    rw [heldCount_append, heldCount_cons_queued] at hps
    rw [heldCount_append, heldCount_cons_running]
    omega
  | finish l r =>
    rw [heldCount_append, heldCount_cons_running] at hps
    rw [heldCount_append, heldCount_cons_done]
    omega

theorem heldCount_replicate_idle (n : Nat) :
    heldCount (List.replicate n Phase.idle) = 0 := by
  induction n with
  | zero => rfl
  | succ k ih => rw [List.replicate_succ, heldCount_cons_idle, ih]

theorem heldCount_reach {cap n : Nat} {ps : List Phase} (h : PoolReach cap n ps) :
    heldCount ps ≤ cap := by
  induction h with
  | refl => rw [heldCount_replicate_idle]; omega
  | tail _ hstep ih => exact heldCount_le_of_step hstep ih

theorem runningCount_le_heldCount (ps : List Phase) :
    runningCount ps ≤ heldCount ps := by
  induction ps with
  | nil => exact Nat.le_refl 0
  | cons p rest ih =>
    simp only [runningCount, heldCount, List.countP_cons] at ih ⊢
    cases p <;> simp at ih ⊢ <;> omega

/-!
Supporting lemmas.
-/

theorem openFailText_ne_nil (msg : GoStr) : openFailText msg ≠ [] := by
  intro h
  have hl := congrArg List.length h
  rw [openFailText, List.length_append] at hl
  rw [show ("failed to open file: ".toList).length = 21 by decide] at hl
  simp at hl

theorem readFailText_ne_nil (msg : GoStr) : readFailText msg ≠ [] := by
  intro h
  have hl := congrArg List.length h
  rw [readFailText, List.length_append] at hl
  rw [show ("failed to read file: ".toList).length = 21 by decide] at hl
  simp at hl

theorem hexEncode_md5Sum_ne_nil (bytes : List Nat) : hexEncode (md5Sum bytes) ≠ [] := by
  intro h
  have hl := congrArg List.length h
  rw [hexEncode_length, md5Sum_length] at hl
  simp at hl

/-- CLAIM C6.  For every ResultRecord produced by processFile, exactly one of
the digest and error fields is populated, determined by the status tag: on a
fully successful stream the record has status `success`, the MD5 digest
rendered as lowercase hexadecimal, and no error text; on an open or read
failure it has status `error`, a non-empty description wrapping the
underlying cause, and no digest. -/
theorem claim_C6_record_fields (n t msg : GoStr) (bytes : List Nat) :
    (processFile n t (.ok bytes)).Status = statusSuccess ∧
    (processFile n t (.ok bytes)).MD5 = hexEncode (md5Sum bytes) ∧
    (processFile n t (.ok bytes)).MD5 ≠ [] ∧
    (processFile n t (.ok bytes)).MD5.all isLowerHexChar = true ∧
    (processFile n t (.ok bytes)).Error = [] ∧
    (processFile n t (.openError msg)).Status = statusError ∧
    (processFile n t (.openError msg)).Error = openFailText msg ∧
    (processFile n t (.openError msg)).Error ≠ [] ∧
    (processFile n t (.openError msg)).MD5 = [] ∧
    (processFile n t (.readError msg)).Status = statusError ∧
    (processFile n t (.readError msg)).Error = readFailText msg ∧
    (processFile n t (.readError msg)).Error ≠ [] ∧
    (processFile n t (.readError msg)).MD5 = [] ∧
    statusSuccess ≠ statusError :=
  ⟨rfl, rfl, hexEncode_md5Sum_ne_nil bytes, hexEncode_all_lowerHex (md5Sum bytes), rfl,
   rfl, rfl, openFailText_ne_nil msg, rfl,
   rfl, rfl, readFailText_ne_nil msg, rfl, by decide⟩

/-- CLAIM C7 counterexample.  The claim states the timestamp marks the
moment processing of the file completed.  At this concrete input (an open
attempt that consumes one time unit, with a formatter distinguishing the
two instants, as RFC3339 does), the record's timestamp differs from the
formatted completion time: the source samples `time.Now()` once, at entry,
before any I/O. -/
theorem claim_C7_counterexample :
    ¬ ((processFileTimed ['a'] (fun k => Nat.toDigits 10 k)
          (.openError ['x']) 1 0 0).1.Timestamp =
        Nat.toDigits 10
          (processFileTimed ['a'] (fun k => Nat.toDigits 10 k)
            (.openError ['x']) 1 0 0).2) := by decide

/-- CLAIM C7 (amended).  For every ResultRecord, the timestamp field is the
UTC RFC3339 rendering of the clock sampled when processing of the file
BEGAN — at function entry, before the open — the same single sample on every
exit path, not the completion time. -/
theorem claim_C7_timestamp_at_entry (n : GoStr) (fmt : Nat → GoStr) (o : FileOutcome)
    (dOpen dRead t0 : Nat) :
    (processFileTimed n fmt o dOpen dRead t0).1.Timestamp = fmt t0 := by
  cases o <;> rfl

/-- CLAIM C1 counterexample.  The claim states that on a close failure the
temporary artifact is removed.  At this concrete input (only `Close` fails),
`writeLogAtomic` reports failure and leaves `log.json` untouched, but
`log.tmp` is left behind: the source has no `os.Remove` on the close-failure
path. -/
theorem claim_C1_counterexample :
    (writeLogAtomic ⟨true, true, true, true, false, true⟩ [] ⟨false, none, none⟩).1
        = false ∧
    (writeLogAtomic ⟨true, true, true, true, false, true⟩ [] ⟨false, none, none⟩).2.log
        = none ∧
    (writeLogAtomic ⟨true, true, true, true, false, true⟩ [] ⟨false, none, none⟩).2.tmpExists
        = true := by decide

/-- CLAIM C1 (amended).  For every folder log write that fails before the
atomic publish, writeLogAtomic reports failure to its caller and leaves the
final artifact log.json untouched; on a create failure nothing was created,
on a write failure the temporary artifact is removed, but on a close failure
the temporary artifact is left in place. -/
theorem claim_C1_prepublish_failure (env : WriteEnv) (results : List LogEntry)
    (fs : LogFS) (hm : env.marshalOk = true) :
    (env.createOk = false →
      writeLogAtomic env results fs = (false, fs)) ∧
    (env.createOk = true → env.writeOk = false →
      writeLogAtomic env results fs =
        (false, { fs with tmpExists := false, tmp := none })) ∧
    (env.createOk = true → env.writeOk = true → env.closeOk = false →
      writeLogAtomic env results fs =
        (false, { fs with tmpExists := true, tmp := some results })) := by
  rcases env with ⟨m, cr, w, sy, cl, rn⟩
  simp only at hm
  subst hm
  refine ⟨?_, ?_, ?_⟩
  · intro h1
    simp only at h1
    subst h1
    rfl
  · intro h1 h2
    simp only at h1 h2
    subst h1; subst h2
    rfl
  · intro h1 h2 h3
    simp only at h1 h2 h3
    subst h1; subst h2; subst h3
    rfl

/-- Witness for C1 (amended): the close-failure case at a concrete input. -/
theorem claim_C1_prepublish_failure_witness :
    writeLogAtomic ⟨true, true, true, true, false, true⟩ [] ⟨false, none, none⟩ =
      (false, { tmpExists := true, tmp := some [], log := none }) :=
  (claim_C1_prepublish_failure ⟨true, true, true, true, false, true⟩ []
    ⟨false, none, none⟩ rfl).2.2 rfl rfl rfl

/-!
Lemmas about the folder-name surgery of `renameFolderSafe`.
-/

theorem rMark_eq : rMark = ['r', '_'] := by decide

theorem dMark_eq : dMark = ['d', '_'] := by decide

theorem fMark_eq : fMark = ['f', '_'] := by decide

theorem goHasPfx_append (p x : GoStr) : goHasPfx p (p ++ x) = true := by
  rw [goHasPfx, List.isPrefixOf_iff_prefix]
  exact List.prefix_append p x

theorem goHasPfx_exists {p s : GoStr} (h : goHasPfx p s = true) : ∃ t, s = p ++ t := by
  rw [goHasPfx, List.isPrefixOf_iff_prefix] at h
  rcases h with ⟨t, ht⟩
  exact ⟨t, ht.symm⟩

theorem goTrimPfx_append (p t : GoStr) : goTrimPfx p (p ++ t) = t := by
  rw [goTrimPfx, if_pos (by rw [List.isPrefixOf_iff_prefix]; exact List.prefix_append p t)]
  exact List.drop_left p t

theorem deriveId_of_rMark {src : GoStr} (h : goHasPfx rMark src = true) :
    deriveId src = goTrimPfx rMark src := by
  rw [deriveId, if_pos h]

/-- The computed target name always starts with the chosen status marker. -/
theorem renameTarget_shape (dirs : GoStr → Bool) (ts src : GoStr) (b : Bool) :
    ∃ rest : GoStr, renameTarget dirs ts src b = markOf b ++ rest := by
  rw [renameTarget]
  by_cases h : dirs (markOf b ++ deriveId src) = true
  · exact ⟨deriveId src ++ '_' :: ts, by simp [h, List.append_assoc]⟩
  · exact ⟨deriveId src, by simp [h]⟩

theorem goHasPfx_renameTarget (dirs : GoStr → Bool) (ts src : GoStr) (b : Bool) :
    goHasPfx (markOf b) (renameTarget dirs ts src b) = true := by
  rcases renameTarget_shape dirs ts src b with ⟨rest, hr⟩
  rw [hr]
  exact goHasPfx_append (markOf b) rest

/-- A pending-named folder (prefix `r_`) is never equal to any computed
target name, whose first character is `d` or `f`. -/
theorem src_ne_renameTarget {src : GoStr} (dirs : GoStr → Bool) (ts : GoStr) (b : Bool)
    (hsrc : goHasPfx rMark src = true) :
    src ≠ renameTarget dirs ts src b := by
  rcases goHasPfx_exists hsrc with ⟨t, hts⟩
  rcases renameTarget_shape dirs ts src b with ⟨rest, hr⟩
  rw [hr, hts, rMark_eq]
  cases b <;> rw [markOf] <;> simp [dMark_eq, fMark_eq]

/-- The timestamped collision target is a strictly longer name than the
plain target, hence distinct from it. -/
theorem plain_ne_suffixed (tgt0 : GoStr) (ts : GoStr) :
    tgt0 ≠ tgt0 ++ '_' :: ts := by
  intro h
  have hl := congrArg List.length h
  rw [List.length_append] at hl
  simp at hl

/-- CLAIM C9.  When finalizing a folder whose computed target name is
already taken, the folder is renamed to the target name with the UTC
timestamp suffix appended (a distinct name), the rename is performed rather
than failing, and the pre-existing directory at the original target name is
left untouched. -/
theorem claim_C9_collision_suffix (dirs : GoStr → Bool) (ts src : GoStr) (b : Bool)
    (hsrc : goHasPfx rMark src = true)
    (hcol : dirs (markOf b ++ deriveId src) = true) :
    renameTarget dirs ts src b = (markOf b ++ deriveId src) ++ '_' :: ts ∧
    (renameFolderSafe dirs true ts src b).1 = true ∧
    (renameFolderSafe dirs true ts src b).2 (markOf b ++ deriveId src) = true ∧
    (renameFolderSafe dirs true ts src b).2 (renameTarget dirs ts src b) = true ∧
    (renameFolderSafe dirs true ts src b).2 src = false := by
  have htgt : renameTarget dirs ts src b = (markOf b ++ deriveId src) ++ '_' :: ts := by
    rw [renameTarget, if_pos hcol]
  have hne0 : markOf b ++ deriveId src ≠ renameTarget dirs ts src b := by
    rw [htgt]; exact plain_ne_suffixed _ ts
  have hne0src : markOf b ++ deriveId src ≠ src := by
    rcases goHasPfx_exists hsrc with ⟨t, hts⟩
    rw [hts, rMark_eq]
    cases b <;> rw [markOf] <;> simp [dMark_eq, fMark_eq]
  have hnesrc : src ≠ renameTarget dirs ts src b := src_ne_renameTarget dirs ts b hsrc
  refine ⟨htgt, rfl, ?_, ?_, ?_⟩
  · show (if markOf b ++ deriveId src = renameTarget dirs ts src b then true
      else if markOf b ++ deriveId src = src then false
      else dirs (markOf b ++ deriveId src)) = true
    rw [if_neg hne0, if_neg hne0src]
    exact hcol
  · show (if renameTarget dirs ts src b = renameTarget dirs ts src b then true
      else if renameTarget dirs ts src b = src then false
      else dirs (renameTarget dirs ts src b)) = true
    rw [if_pos rfl]
  · show (if src = renameTarget dirs ts src b then true
      else if src = src then false
      else dirs src) = false
    rw [if_neg hnesrc, if_pos rfl]

/-- Witness for C9: finalizing `r_004` as done while `d_004` already
exists renames it to `d_004_20060102T150405Z` and leaves `d_004` present. -/
theorem claim_C9_collision_suffix_witness :
    renameTarget (fun n => decide (n = "d_004".toList)) "20060102T150405Z".toList
        "r_004".toList true =
      (markOf true ++ deriveId "r_004".toList) ++ '_' :: "20060102T150405Z".toList ∧
    (renameFolderSafe (fun n => decide (n = "d_004".toList)) true
        "20060102T150405Z".toList "r_004".toList true).1 = true ∧
    (renameFolderSafe (fun n => decide (n = "d_004".toList)) true
        "20060102T150405Z".toList "r_004".toList true).2
        (markOf true ++ deriveId "r_004".toList) = true ∧
    (renameFolderSafe (fun n => decide (n = "d_004".toList)) true
        "20060102T150405Z".toList "r_004".toList true).2
        (renameTarget (fun n => decide (n = "d_004".toList)) "20060102T150405Z".toList
          "r_004".toList true) = true ∧
    (renameFolderSafe (fun n => decide (n = "d_004".toList)) true
        "20060102T150405Z".toList "r_004".toList true).2 "r_004".toList = false :=
  claim_C9_collision_suffix (fun n => decide (n = "d_004".toList))
    "20060102T150405Z".toList "r_004".toList true (by decide) (by decide)

/-!
CLAIM C10: behaviour of `renameFolderSafe` on base names without the
pending marker.
-/

/-- Stated from the claim's wording, for comparison with the code path: the
substring after the first occurrence of `sep` (meaningful when `sep`
occurs). -/
def afterFirstSep (sep : Char) : GoStr → GoStr
  | [] => []
  | c :: cs => if c = sep then cs else afterFirstSep sep cs

theorem splitFirst_eq_none_iff (sep : Char) (s : GoStr) :
    splitFirst sep s = none ↔ sep ∉ s := by
  induction s with
  | nil => simp [splitFirst]
  | cons c cs ih =>
    by_cases h : c = sep
    · subst h
      simp [splitFirst]
    · simp [splitFirst, h, Option.map_eq_none', ih, Ne.symm h]

theorem splitFirst_snd (sep : Char) (s : GoStr) (p : GoStr × GoStr)
    (h : splitFirst sep s = some p) : p.2 = afterFirstSep sep s := by
  induction s generalizing p with
  | nil => simp [splitFirst] at h
  | cons c cs ih =>
    by_cases hc : c = sep
    · subst hc
      rw [splitFirst] at h
      simp at h
      rw [afterFirstSep, if_pos rfl, ← h]
    · rw [splitFirst, if_neg hc] at h
      rcases hq : splitFirst sep cs with _ | q
      · rw [hq] at h; simp at h
      · rw [hq] at h
        simp at h
        rw [afterFirstSep, if_neg hc, ← ih q hq, ← h]

/-- CLAIM C10.  If renameFolderSafe is invoked on a folder whose base name
does not start with the pending marker `r_`, it still performs the terminal
rename rather than rejecting the input: the stable identifier is the
substring after the first underscore when the name contains one, and the
entire base name otherwise, before the done or failed marker is applied. -/
theorem claim_C10_nonpending_rename (dirs : GoStr → Bool) (ts src : GoStr) (b : Bool)
    (h : goHasPfx rMark src = false) :
    (renameFolderSafe dirs true ts src b).1 = true ∧
    deriveId src = (if '_' ∈ src then afterFirstSep '_' src else src) ∧
    renameTarget dirs ts src b =
      (if dirs (markOf b ++ deriveId src) then
        (markOf b ++ deriveId src) ++ '_' :: ts
       else markOf b ++ deriveId src) ∧
    (renameFolderSafe dirs true ts src b).2 (renameTarget dirs ts src b) = true := by
  have hid : deriveId src = (if '_' ∈ src then afterFirstSep '_' src else src) := by
    rw [deriveId, if_neg (by rw [h]; exact Bool.false_ne_true)]
    rcases hs : splitFirst '_' src with _ | p
    · rw [if_neg ((splitFirst_eq_none_iff '_' src).mp hs)]
    · have hmem : '_' ∈ src := by
        by_contra hmem
        rw [(splitFirst_eq_none_iff '_' src).mpr hmem] at hs
        cases hs
      rw [if_pos hmem]
      exact splitFirst_snd '_' src p hs
  refine ⟨rfl, hid, by rw [renameTarget], ?_⟩
  show (if renameTarget dirs ts src b = renameTarget dirs ts src b then true
    else if renameTarget dirs ts src b = src then false
    else dirs (renameTarget dirs ts src b)) = true
  rw [if_pos rfl]

/-- Witness for C10: a folder named `x_9` (no pending marker, one
underscore) is still renamed, with identifier `9`. -/
theorem claim_C10_nonpending_rename_witness :
    (renameFolderSafe (fun _ => false) true "T".toList "x_9".toList false).1 = true ∧
    deriveId "x_9".toList =
      (if '_' ∈ "x_9".toList then afterFirstSep '_' "x_9".toList else "x_9".toList) ∧
    renameTarget (fun _ => false) "T".toList "x_9".toList false =
      (if (fun _ => false : GoStr → Bool) (markOf false ++ deriveId "x_9".toList) then
        (markOf false ++ deriveId "x_9".toList) ++ '_' :: "T".toList
       else markOf false ++ deriveId "x_9".toList) ∧
    (renameFolderSafe (fun _ => false) true "T".toList "x_9".toList false).2
      (renameTarget (fun _ => false) "T".toList "x_9".toList false) = true :=
  claim_C10_nonpending_rename (fun _ => false) "T".toList "x_9".toList false (by decide)

/-- CLAIM C8.  During the processing of any single folder, in every pool
state reachable from the initial state (`n` undispatched tasks, semaphore
capacity `cap`), no more than `cap` FileHasher invocations execute
simultaneously; moreover every running task holds a slot (tasks acquire
before starting and release only on completion), and the slots held never
exceed the capacity. -/
theorem claim_C8_bounded_concurrency (cap n : Nat) (ps : List Phase)
    (h : PoolReach cap n ps) :
    runningCount ps ≤ cap ∧ runningCount ps ≤ heldCount ps ∧ heldCount ps ≤ cap :=
  ⟨le_trans (runningCount_le_heldCount ps) (heldCount_reach h),
   runningCount_le_heldCount ps, heldCount_reach h⟩

/-- Witness for C8: with capacity 1 and one task, the state reached by
dispatching and then starting the task satisfies the bound. -/
theorem claim_C8_bounded_concurrency_witness :
    runningCount [Phase.running] ≤ 1 ∧
    runningCount [Phase.running] ≤ heldCount [Phase.running] ∧
    heldCount [Phase.running] ≤ 1 :=
  claim_C8_bounded_concurrency 1 1 [Phase.running]
    (Relation.ReflTransGen.tail
      (Relation.ReflTransGen.tail Relation.ReflTransGen.refl
        (PoolStep.dispatch [] [] (by simp) (by decide)))
      (PoolStep.start [] []))

/-!
Lemmas about the folder pipeline.
-/

theorem writeLogAtomic_success_state (env : WriteEnv) (results : List LogEntry)
    (fs : LogFS)
    (h : (env.marshalOk && env.createOk && env.writeOk && env.closeOk &&
      env.renameOk) = true) :
    writeLogAtomic env results fs =
      (true, { fs with tmpExists := false, tmp := none, log := some results }) := by
  rcases env with ⟨m, cr, w, sy, cl, rn⟩
  simp only [Bool.and_eq_true] at h
  rcases h with ⟨⟨⟨⟨hm, hcr⟩, hw⟩, hcl⟩, hrn⟩
  subst hm; subst hcr; subst hw; subst hcl; subst hrn
  cases sy <;> rfl

theorem processFolderRun_write_ok (srcName : GoStr) (arrival : List LogEntry)
    (env : FolderEnv) (lfs : LogFS) (dirs : GoStr → Bool)
    (hw : (env.wenv.marshalOk && env.wenv.createOk && env.wenv.writeOk &&
      env.wenv.closeOk && env.wenv.renameOk) = true) :
    processFolderRun srcName arrival env lfs dirs =
      { ok := (renameFolderSafe dirs env.mvOk env.ts srcName
          (computeAllSuccess (sortByFilename arrival))).1,
        lfs := { lfs with tmpExists := false, tmp := none
                          log := some (sortByFilename arrival) },
        dirs := (renameFolderSafe dirs env.mvOk env.ts srcName
          (computeAllSuccess (sortByFilename arrival))).2,
        verdictUsed := computeAllSuccess (sortByFilename arrival) } := by
  simp only [processFolderRun,
    writeLogAtomic_success_state env.wenv (sortByFilename arrival) lfs hw]
  simp

theorem processFolderRun_write_fail (srcName : GoStr) (arrival : List LogEntry)
    (env : FolderEnv) (lfs : LogFS) (dirs : GoStr → Bool)
    (hw : (env.wenv.marshalOk && env.wenv.createOk && env.wenv.writeOk &&
      env.wenv.closeOk && env.wenv.renameOk) = false) :
    processFolderRun srcName arrival env lfs dirs =
      { ok := false,
        lfs := (writeLogAtomic env.wenv (sortByFilename arrival) lfs).2,
        dirs := (renameFolderSafe dirs env.mvOk env.ts srcName false).2,
        verdictUsed := false } := by
  have h1 : (writeLogAtomic env.wenv (sortByFilename arrival) lfs).1 = false := by
    rw [writeLogAtomic_ok_iff]; exact hw
  simp only [processFolderRun, h1]
  simp

theorem renameFolderSafe_target_present (dirs : GoStr → Bool) (ts src : GoStr)
    (b : Bool) :
    (renameFolderSafe dirs true ts src b).2 (renameTarget dirs ts src b) = true := by
  show (if renameTarget dirs ts src b = renameTarget dirs ts src b then true
    else if renameTarget dirs ts src b = src then false
    else dirs (renameTarget dirs ts src b)) = true
  rw [if_pos rfl]

theorem renameFolderSafe_src_gone {src : GoStr} (dirs : GoStr → Bool) (ts : GoStr)
    (b : Bool) (hsrc : goHasPfx rMark src = true) :
    (renameFolderSafe dirs true ts src b).2 src = false := by
  show (if src = renameTarget dirs ts src b then true
    else if src = src then false
    else dirs src) = false
  rw [if_neg (src_ne_renameTarget dirs ts b hsrc), if_pos rfl]

theorem sortByFilename_perm (l : List LogEntry) : (sortByFilename l).Perm l :=
  List.perm_insertionSort entryLe l

theorem sortByFilename_sorted (l : List LogEntry) :
    List.Sorted entryLe (sortByFilename l) :=
  List.sorted_insertionSort entryLe l

theorem sorted_strict_of_nodup {l : List LogEntry} (hs : List.Sorted entryLe l)
    (hnd : (l.map LogEntry.Filename).Nodup) : List.Sorted entryLt l := by
  have hne : l.Pairwise (fun a b => a.Filename ≠ b.Filename) :=
    List.pairwise_map.mp hnd
  exact (List.Pairwise.and hs hne).imp (fun h => strLt_of_strLe_of_ne h.1 h.2)

theorem sortByFilename_eq_of_perm {l₁ l₂ : List LogEntry} (hp : l₁.Perm l₂)
    (hnd : (l₁.map LogEntry.Filename).Nodup) :
    sortByFilename l₁ = sortByFilename l₂ := by
  have p1 := sortByFilename_perm l₁
  have p2 := sortByFilename_perm l₂
  have hp' : (sortByFilename l₁).Perm (sortByFilename l₂) :=
    p1.trans (hp.trans p2.symm)
  have nd1 : ((sortByFilename l₁).map LogEntry.Filename).Nodup :=
    ((p1.map LogEntry.Filename).nodup_iff).mpr hnd
  have nd2 : ((sortByFilename l₂).map LogEntry.Filename).Nodup :=
    ((hp'.map LogEntry.Filename).nodup_iff).mp nd1
  exact List.eq_of_perm_of_sorted hp'
    (sorted_strict_of_nodup (sortByFilename_sorted l₁) nd1)
    (sorted_strict_of_nodup (sortByFilename_sorted l₂) nd2)

theorem computeAllSuccess_iff (l : List LogEntry) :
    computeAllSuccess l = true ↔ ∀ r ∈ l, r.Status = statusSuccess := by
  rw [computeAllSuccess, List.all_eq_true]
  simp

/-- CLAIM C2.  For every folder whose log publication succeeds, the
aggregate verdict is done — the folder is renamed with the done marker — if
and only if every ResultRecord in its persisted log has status success, and
otherwise the folder is renamed with the failed marker; a folder with zero
files yields an empty record set and verdict done. -/
theorem claim_C2_verdict_iff_all_success (entries : List GoDirEntry)
    (oracle : GoStr → FileOutcome) (times : GoStr → GoStr)
    (arrival : List LogEntry) (env : FolderEnv) (lfs : LogFS)
    (dirs : GoStr → Bool) (srcName : GoStr)
    (harr : arrival.Perm (dispatched entries oracle times))
    (hw : (env.wenv.marshalOk && env.wenv.createOk && env.wenv.writeOk &&
      env.wenv.closeOk && env.wenv.renameOk) = true)
    (hmv : env.mvOk = true) :
    (processFolderRun srcName arrival env lfs dirs).lfs.log =
      some (sortByFilename arrival) ∧
    ((processFolderRun srcName arrival env lfs dirs).verdictUsed = true ↔
      ∀ r ∈ sortByFilename arrival, r.Status = statusSuccess) ∧
    (processFolderRun srcName arrival env lfs dirs).dirs
      (renameTarget dirs env.ts srcName
        (processFolderRun srcName arrival env lfs dirs).verdictUsed) = true ∧
    goHasPfx dMark (renameTarget dirs env.ts srcName true) = true ∧
    goHasPfx fMark (renameTarget dirs env.ts srcName false) = true ∧
    (scanFiles entries = [] →
      (processFolderRun srcName arrival env lfs dirs).verdictUsed = true) := by
  rw [processFolderRun_write_ok _ _ _ _ _ hw, hmv]
  refine ⟨rfl, computeAllSuccess_iff (sortByFilename arrival), ?_, ?_, ?_, ?_⟩
  · exact renameFolderSafe_target_present dirs env.ts srcName
      (computeAllSuccess (sortByFilename arrival))
  · exact goHasPfx_renameTarget dirs env.ts srcName true
  · exact goHasPfx_renameTarget dirs env.ts srcName false
  · intro hempty
    have hd : dispatched entries oracle times = [] := by
      rw [dispatched, hempty]; rfl
    have harr0 : arrival = [] := by
      rw [hd] at harr
      exact harr.eq_nil
    rw [harr0]
    rfl

/-- Witness for C2: an empty pending folder with a successful log write is
finalized with verdict done. -/
theorem claim_C2_verdict_iff_all_success_witness :
    (processFolderRun "r_1".toList [] ⟨⟨true, true, true, true, true, true⟩, true, []⟩
      ⟨false, none, none⟩ (fun _ => false)).verdictUsed = true :=
  (claim_C2_verdict_iff_all_success [] (fun _ => FileOutcome.openError [])
    (fun _ => []) [] ⟨⟨true, true, true, true, true, true⟩, true, []⟩
    ⟨false, none, none⟩ (fun _ => false) "r_1".toList (List.Perm.refl _)
    rfl rfl).2.2.2.2.2 rfl

/-- CLAIM C3.  For every folder whose log publication fails,
renameFolderSafe is still invoked with verdict failed: processFolder
reports the error, the folder is renamed with the failed marker, and the
pending-named folder no longer exists — regardless of the per-file
outcomes (the collected records are arbitrary here). -/
theorem claim_C3_logfail_finalizes_failed (srcName : GoStr)
    (arrival : List LogEntry) (env : FolderEnv) (lfs : LogFS)
    (dirs : GoStr → Bool)
    (hsrc : goHasPfx rMark srcName = true)
    (hw : (env.wenv.marshalOk && env.wenv.createOk && env.wenv.writeOk &&
      env.wenv.closeOk && env.wenv.renameOk) = false)
    (hmv : env.mvOk = true) :
    (processFolderRun srcName arrival env lfs dirs).verdictUsed = false ∧
    (processFolderRun srcName arrival env lfs dirs).ok = false ∧
    (processFolderRun srcName arrival env lfs dirs).dirs srcName = false ∧
    (processFolderRun srcName arrival env lfs dirs).dirs
      (renameTarget dirs env.ts srcName false) = true ∧
    goHasPfx fMark (renameTarget dirs env.ts srcName false) = true := by
  rw [processFolderRun_write_fail _ _ _ _ _ hw, hmv]
  exact ⟨rfl, rfl, renameFolderSafe_src_gone dirs env.ts false hsrc,
    renameFolderSafe_target_present dirs env.ts srcName false,
    goHasPfx_renameTarget dirs env.ts srcName false⟩

/-- Witness for C3: a close failure during log writing makes the run rename
the folder with the failed marker even though the collected record set (one
successful record) is all-success. -/
theorem claim_C3_logfail_finalizes_failed_witness :
    (processFolderRun "r_1".toList
      [{ Filename := ['a'], Status := statusSuccess, MD5 := ['0'], Error := [],
         Timestamp := [] }]
      ⟨⟨true, true, true, true, false, true⟩, true, []⟩
      ⟨false, none, none⟩ (fun _ => false)).verdictUsed = false :=
  (claim_C3_logfail_finalizes_failed "r_1".toList
    [{ Filename := ['a'], Status := statusSuccess, MD5 := ['0'], Error := [],
       Timestamp := [] }]
    ⟨⟨true, true, true, true, false, true⟩, true, []⟩
    ⟨false, none, none⟩ (fun _ => false) (by decide) rfl rfl).1

/-- CLAIM C4.  For every folder (with a successful log publication), the
persisted FolderLog is the filename-sorted permutation of the collected
records — sorted ascending by byte-wise filename comparison — and the same
log is produced from any other channel-arrival order of the dispatched
records (filenames within one folder are distinct). -/
theorem claim_C4_log_sorted_deterministic (entries : List GoDirEntry)
    (oracle : GoStr → FileOutcome) (times : GoStr → GoStr)
    (arrival : List LogEntry) (env : FolderEnv) (lfs : LogFS)
    (dirs : GoStr → Bool) (srcName : GoStr)
    (harr : arrival.Perm (dispatched entries oracle times))
    (hw : (env.wenv.marshalOk && env.wenv.createOk && env.wenv.writeOk &&
      env.wenv.closeOk && env.wenv.renameOk) = true) :
    (processFolderRun srcName arrival env lfs dirs).lfs.log =
      some (sortByFilename arrival) ∧
    List.Sorted entryLe (sortByFilename arrival) ∧
    (sortByFilename arrival).Perm arrival ∧
    (∀ arrival2 : List LogEntry,
      arrival2.Perm (dispatched entries oracle times) →
      ((dispatched entries oracle times).map LogEntry.Filename).Nodup →
      (processFolderRun srcName arrival2 env lfs dirs).lfs.log =
        some (sortByFilename arrival)) := by
  refine ⟨by rw [processFolderRun_write_ok _ _ _ _ _ hw],
    sortByFilename_sorted arrival, sortByFilename_perm arrival, ?_⟩
  intro arrival2 h2 hnd
  rw [processFolderRun_write_ok _ _ _ _ _ hw]
  have heq : sortByFilename arrival2 = sortByFilename arrival := by
    apply sortByFilename_eq_of_perm (h2.trans harr.symm)
    exact ((h2.map LogEntry.Filename).nodup_iff).mpr hnd
  rw [heq]

/-- Witness for C4: a two-file folder processed with the records arriving in
either order produces the same sorted log. -/
theorem claim_C4_log_sorted_deterministic_witness :
    (processFolderRun "r_1".toList
      (dispatched [⟨['b'], false⟩, ⟨['a'], false⟩]
        (fun _ => FileOutcome.openError ['e']) (fun _ => ['T']))
      ⟨⟨true, true, true, true, true, true⟩, true, []⟩
      ⟨false, none, none⟩ (fun _ => false)).lfs.log =
    some (sortByFilename
      (dispatched [⟨['b'], false⟩, ⟨['a'], false⟩]
        (fun _ => FileOutcome.openError ['e']) (fun _ => ['T']))) :=
  (claim_C4_log_sorted_deterministic [⟨['b'], false⟩, ⟨['a'], false⟩]
    (fun _ => FileOutcome.openError ['e']) (fun _ => ['T'])
    (dispatched [⟨['b'], false⟩, ⟨['a'], false⟩]
      (fun _ => FileOutcome.openError ['e']) (fun _ => ['T']))
    ⟨⟨true, true, true, true, true, true⟩, true, []⟩
    ⟨false, none, none⟩ (fun _ => false) "r_1".toList (List.Perm.refl _) rfl).1

/-- CLAIM C5.  For every folder, exactly one ResultRecord is produced per
non-directory entry present at scan time: the persisted log's length equals
the number of scanned files, per filename the log holds exactly as many
records as there are scanned files of that name (no record dropped, none
delivered twice), and every record stems from a non-directory entry —
nested directories produce no record. -/
theorem claim_C5_one_record_per_file (entries : List GoDirEntry)
    (oracle : GoStr → FileOutcome) (times : GoStr → GoStr)
    (arrival : List LogEntry) (env : FolderEnv) (lfs : LogFS)
    (dirs : GoStr → Bool) (srcName : GoStr)
    (harr : arrival.Perm (dispatched entries oracle times))
    (hw : (env.wenv.marshalOk && env.wenv.createOk && env.wenv.writeOk &&
      env.wenv.closeOk && env.wenv.renameOk) = true) :
    (processFolderRun srcName arrival env lfs dirs).lfs.log =
      some (sortByFilename arrival) ∧
    (sortByFilename arrival).length = (scanFiles entries).length ∧
    (∀ nm : GoStr,
      (sortByFilename arrival).countP (fun r => decide (r.Filename = nm)) =
        (scanFiles entries).countP (fun de => decide (de.name = nm))) ∧
    (∀ r ∈ sortByFilename arrival,
      ∃ de ∈ entries, de.isDir = false ∧ de.name = r.Filename) := by
  have hperm : (sortByFilename arrival).Perm (dispatched entries oracle times) :=
    (sortByFilename_perm arrival).trans harr
  refine ⟨by rw [processFolderRun_write_ok _ _ _ _ _ hw], ?_, ?_, ?_⟩
  · rw [hperm.length_eq, dispatched, List.length_map]
  · intro nm
    rw [hperm.countP_eq, dispatched, List.countP_map]
    apply List.countP_congr
    intro de _
    simp [Function.comp, processFile_filename]
  · intro r hr
    have hmem0 : r ∈ dispatched entries oracle times := hperm.mem_iff.mp hr
    rw [dispatched] at hmem0
    rcases List.mem_map.mp hmem0 with ⟨de, hde, hpr⟩
    rcases List.mem_filter.mp hde with ⟨hmem, hfil⟩
    refine ⟨de, hmem, by simpa using hfil, ?_⟩
    rw [← hpr, processFile_filename]

/-- Witness for C5: a folder holding one file and one nested directory
yields a log with exactly one record, stemming from the file. -/
theorem claim_C5_one_record_per_file_witness :
    (sortByFilename
      (dispatched [⟨['a'], false⟩, ⟨['d'], true⟩]
        (fun _ => FileOutcome.openError ['e']) (fun _ => ['T']))).length =
    (scanFiles [⟨['a'], false⟩, ⟨['d'], true⟩]).length :=
  (claim_C5_one_record_per_file [⟨['a'], false⟩, ⟨['d'], true⟩]
    (fun _ => FileOutcome.openError ['e']) (fun _ => ['T'])
    (dispatched [⟨['a'], false⟩, ⟨['d'], true⟩]
      (fun _ => FileOutcome.openError ['e']) (fun _ => ['T']))
    ⟨⟨true, true, true, true, true, true⟩, true, []⟩
    ⟨false, none, none⟩ (fun _ => false) "r_1".toList
    (List.Perm.refl _) rfl).2.1
